import Mathlib

/-!
GoAudio `wave` package: the in-memory representation of a `.wav` file

Shallow embedding of `src/wave/wavefile.go`.  The file declares the sample
type, four record types (`Wave`, `WaveHeader`, `WaveFmt`, `WaveData`) and, in
its leading block comment, the byte layout table of a canonical WAVE file.
It contains no functions: the records are plain Go structs with exported
fields, every field documented by a line comment.

* Go `int` fields are `Int` here; a Go `int` is a 64-bit two's-complement
  value on the usual targets, and Go arithmetic on it wraps around (`wrapInt`,
  `goMul`, `goDiv`).
* Go `[]byte` is `List Byte`, `string` is `String`, `float64` is `Float`.
* The layout table is embedded row by row as `layoutTable`.
-/

namespace wave

/-! ## Data model -/

/-- Sample is the Go declaration `type Sample float64`. -/
abbrev Sample := Float

/-- Byte is a Go `byte`, an unsigned 8-bit value. -/
abbrev Byte := Fin 256

/-- WaveHeader describes the header each WAVE file should start with. -/
structure WaveHeader where
  /-- should be RIFF on little-endian or RIFX on big-endian systems -/
  ChunkID : List Byte
  ChunkSize : Int
  /-- sanity-check, should be WAVE -/
  Format : String

/-- WaveFmt describes the format of the sound-information in the data
subchunks. -/
structure WaveFmt where
  /-- should contain "fmt" -/
  Subchunk1ID : List Byte
  /-- sixteen for PCM (`16 for PCM`) -/
  Subchunk1Size : Int
  /-- PCM = 1 (Linear Quantization), if not 1, compression was used. -/
  AudioFormat : Int
  /-- Mono 1, Stereo = 2, .. -/
  NumChannels : Int
  /-- the sampling rate: `44100 for CD-Quality, etc..` -/
  SampleRate : Int
  /-- SampleRate * NumChannels * BitsPerSample / 8 -/
  ByteRate : Int
  /-- NumChannels * BitsPerSample / 8 (number of bytes per sample) -/
  BlockAlign : Int
  /-- bit depth: `8 bits = 8, 16 bits = 16, ..` -/
  BitsPerSample : Int
  /-- if not PCM, can contain extra params -/
  ExtraParamSize : Int
  /-- the actual extra params. -/
  ExtraParams : List Byte

/-- WaveData contains the raw sound data. -/
structure WaveData where
  /-- Identifier of subchunk -/
  Subchunk2ID : List Byte
  /-- size of raw sound data -/
  Subchunk2Size : Int
  /-- raw sound data itself -/
  RawData : List Byte
  Samples : List Sample

/-- Wave represents an entire .wav audio file: the Go struct embeds
`WaveHeader`, `WaveFmt` and `WaveData`, so their fields are promoted. -/
structure Wave extends WaveHeader, WaveFmt, WaveData

/-! ## Go integer arithmetic -/

/-- Two's-complement wrap-around of a mathematical integer into the range of
a 64-bit Go `int`. -/
def wrapInt (x : Int) : Int := (x + 2 ^ 63) % 2 ^ 64 - 2 ^ 63

/-- InIntRange holds of the integers a 64-bit Go `int` can hold. -/
def InIntRange (x : Int) : Prop := -(2 ^ 63) ≤ x ∧ x < 2 ^ 63

instance (x : Int) : Decidable (InIntRange x) :=
  inferInstanceAs (Decidable (_ ∧ _))

/-- Go `a * b` on `int`. -/
def goMul (a b : Int) : Int := wrapInt (a * b)

/-- Go `a / b` on `int` for a non-zero divisor: the quotient truncated toward
zero. -/
def goDiv (a b : Int) : Int := wrapInt (Int.tdiv a b)

/-! ## The documented derived values

The line comments of `WaveFmt` give the value two fields are meant to hold, as
Go expressions over the other fields.  Go parses `a * b * c / 8` as
`((a * b) * c) / 8`; its `int` product wraps around and its integer division
truncates toward zero. -/

/-- The comment on `ByteRate`, `SampleRate * NumChannels * BitsPerSample / 8`,
evaluated as the Go expression on `int`. -/
def byteRateGo (sampleRate numChannels bitsPerSample : Int) : Int :=
  goDiv (goMul (goMul sampleRate numChannels) bitsPerSample) 8

/-- The comment on `BlockAlign`, `NumChannels * BitsPerSample / 8`, evaluated
as the Go expression on `int`. -/
def blockAlignGo (numChannels bitsPerSample : Int) : Int :=
  goDiv (goMul numChannels bitsPerSample) 8

/-- The audio format code of PCM: the comment `PCM = 1`. -/
def pcmAudioFormat : Int := 1

/-- The comment on `Subchunk1Size`: `16 for PCM`. -/
def pcmSubchunk1Size : Int := 16

/-! ## The layout table -/

/-- The entries of the table's `Field` column.  The table writes
`SubchunkID`/`SubchunkSize` for the fmt subchunk's `Subchunk1ID`/
`Subchunk1Size`, and writes `SubchunkSize` a second time, at offset 40, for
the data subchunk's `Subchunk2Size`. -/
inductive FieldName where
  | ChunkID | ChunkSize | Format
  | SubchunkID | SubchunkSize
  | AudioFormat | NumChannels | SampleRate | ByteRate | BlockAlign
  | BitsPerSample | ExtraParamSize | ExtraParams
  | Subchunk2ID | Data
  deriving DecidableEq

/-- The three parts of the table, opened by its marker rows `start of header`,
`start of fmt` and `start of data, assuming PCM`. -/
inductive Part where
  | header | fmt | data
  deriving DecidableEq

/-- The remark in the table's last column. -/
inductive Remark where
  /-- an empty cell -/
  | blank
  /-- `Optional! Only when not PCM` -/
  | onlyWhenNotPCM
  /-- `(offset by extra params of subchunk 1 if not PCM)` -/
  | offsetByExtraParams
  deriving DecidableEq

/-- One field row of the table. -/
structure LayoutRow where
  part : Part
  /-- the `*` in front of the offset of the two optional rows -/
  starred : Bool
  offset : Nat
  field : FieldName
  /-- the `Size` column; `none` is the table's `*`, a variable size -/
  size : Option Nat
  remark : Remark
  deriving DecidableEq

/-- The layout table of the block comment, field rows in table order. -/
def layoutTable : List LayoutRow :=
  [ ⟨.header, false, 0,  .ChunkID,        some 4, .blank⟩,
    ⟨.header, false, 4,  .ChunkSize,      some 4, .blank⟩,
    ⟨.header, false, 8,  .Format,         some 8, .blank⟩,
    ⟨.fmt,    false, 12, .SubchunkID,     some 4, .blank⟩,
    ⟨.fmt,    false, 16, .SubchunkSize,   some 4, .blank⟩,
    ⟨.fmt,    false, 20, .AudioFormat,    some 2, .blank⟩,
    ⟨.fmt,    false, 22, .NumChannels,    some 2, .blank⟩,
    ⟨.fmt,    false, 24, .SampleRate,     some 4, .blank⟩,
    ⟨.fmt,    false, 28, .ByteRate,       some 4, .blank⟩,
    ⟨.fmt,    false, 32, .BlockAlign,     some 2, .blank⟩,
    ⟨.fmt,    false, 34, .BitsPerSample,  some 2, .blank⟩,
    ⟨.fmt,    true,  36, .ExtraParamSize, some 2, .onlyWhenNotPCM⟩,
    ⟨.fmt,    true,  38, .ExtraParams,    none,   .onlyWhenNotPCM⟩,
    ⟨.data,   false, 36, .Subchunk2ID,    some 4, .offsetByExtraParams⟩,
    ⟨.data,   false, 40, .SubchunkSize,   some 4, .offsetByExtraParams⟩,
    ⟨.data,   false, 44, .Data,           none,   .offsetByExtraParams⟩ ]

/-- A row is optional when the table marks it `Optional! Only when not PCM`. -/
def LayoutRow.isOptional (r : LayoutRow) : Bool :=
  decide (r.remark = Remark.onlyWhenNotPCM)

/-- The layout of a PCM file: the rows of the table that are not marked
`Optional! Only when not PCM`, at their documented offsets. -/
def pcmLayout : List LayoutRow :=
  layoutTable.filter fun r => !r.isOptional

/-- The first byte after a row of fixed size. -/
def LayoutRow.endOffset (r : LayoutRow) : Option Nat :=
  r.size.map fun n => r.offset + n

/-- The pairs of consecutive rows. -/
def consecutivePairs : List LayoutRow → List (LayoutRow × LayoutRow)
  | a :: b :: rest => (a, b) :: consecutivePairs (b :: rest)
  | _ => []

/-- A pair of consecutive rows is contiguous when the later row starts at the
first byte after the earlier one. -/
def contiguousPair (p : LayoutRow × LayoutRow) : Bool :=
  p.1.endOffset == some p.2.offset

/-- A layout is gap-free when all its consecutive pairs are contiguous. -/
def gapFree (rows : List LayoutRow) : Bool :=
  (consecutivePairs rows).all contiguousPair

/-- The consecutive pairs of a layout that are not contiguous. -/
def brokenPairs (rows : List LayoutRow) : List (LayoutRow × LayoutRow) :=
  (consecutivePairs rows).filter fun p => !contiguousPair p

/-- The rows of the fmt subchunk's body in a PCM file: the rows of the fmt
part after the subchunk's own tag and size. -/
def pcmFmtBody : List LayoutRow :=
  pcmLayout.filter fun r =>
    decide (r.part = Part.fmt) && decide (r.field ≠ FieldName.SubchunkID)
      && decide (r.field ≠ FieldName.SubchunkSize)

/-- The rows of the data subchunk. -/
def dataRows : List LayoutRow :=
  layoutTable.filter fun r => decide (r.part = Part.data)

/-- The rows of the data part of a layout. -/
def dataRowsOf (rows : List LayoutRow) : List LayoutRow :=
  rows.filter fun r => decide (r.part = Part.data)

/-- The rows of a layout after its header part. -/
def afterHeader (rows : List LayoutRow) : List LayoutRow :=
  rows.filter fun r => decide (r.part ≠ Part.header)

/-- The table with its optional rows, for extra params of `n` bytes.  The `*`
in the Size cell of `ExtraParams` becomes `n`, and the rows marked
`(offset by extra params of subchunk 1 if not PCM)` sit `shift` bytes after
their documented offsets.  The table gives no number for the move and does not
say where `n` comes from, so both are left open here. -/
def withExtraParams (n shift : Nat) : List LayoutRow :=
  layoutTable.map fun r =>
    { r with
      offset := if r.remark = Remark.offsetByExtraParams then r.offset + shift else r.offset
      size := if r.field = FieldName.ExtraParams then some n else r.size }

/-- The remark `Optional! Only when not PCM` read as a condition on a layout
for the format code `audioFormat`: rows with that remark occur in it only when
the code is not the one of PCM. -/
def RespectsOptional (audioFormat : Int) (rows : List LayoutRow) : Prop :=
  (∃ r ∈ rows, r.isOptional = true) → audioFormat ≠ pcmAudioFormat

/-- The PCM layout with the format tag at the size the specification gives
it, "format tag (4 bytes, expected constant WAVE)", instead of the `8` of the
table; for comparison with `pcmLayout`. -/
def pcmLayoutPerSpec : List LayoutRow :=
  pcmLayout.map fun r =>
    if r.field = FieldName.Format then { r with size := some 4 } else r

/-! ## Concrete values -/

/-- CD-quality stereo PCM format whose `ByteRate` was left at zero. -/
def fmtByteRateUnset : WaveFmt :=
  { Subchunk1ID := [102, 109, 116, 32], Subchunk1Size := 16, AudioFormat := 1,
    NumChannels := 2, SampleRate := 44100, ByteRate := 0, BlockAlign := 4,
    BitsPerSample := 16, ExtraParamSize := 0, ExtraParams := [] }

/-- CD-quality stereo PCM format whose `BlockAlign` was left at zero. -/
def fmtBlockAlignUnset : WaveFmt :=
  { Subchunk1ID := [102, 109, 116, 32], Subchunk1Size := 16, AudioFormat := 1,
    NumChannels := 2, SampleRate := 44100, ByteRate := 176400, BlockAlign := 0,
    BitsPerSample := 16, ExtraParamSize := 0, ExtraParams := [] }

/-- CD-quality stereo PCM format that carries two extra-parameter bytes. -/
def fmtPcmWithExtra : WaveFmt :=
  { Subchunk1ID := [102, 109, 116, 32], Subchunk1Size := 16, AudioFormat := 1,
    NumChannels := 2, SampleRate := 44100, ByteRate := 176400, BlockAlign := 4,
    BitsPerSample := 16, ExtraParamSize := 2, ExtraParams := [0, 0] }

/-- Format with code 3 (not PCM) and no extension content. -/
def fmtNonPcmNoExtra : WaveFmt :=
  { Subchunk1ID := [102, 109, 116, 32], Subchunk1Size := 16, AudioFormat := 3,
    NumChannels := 1, SampleRate := 44100, ByteRate := 176400, BlockAlign := 4,
    BitsPerSample := 32, ExtraParamSize := 0, ExtraParams := [] }

/-- CD-quality stereo PCM format whose `Subchunk1Size` is 18. -/
def fmtPcmSize18 : WaveFmt :=
  { Subchunk1ID := [102, 109, 116, 32], Subchunk1Size := 18, AudioFormat := 1,
    NumChannels := 2, SampleRate := 44100, ByteRate := 176400, BlockAlign := 4,
    BitsPerSample := 16, ExtraParamSize := 0, ExtraParams := [] }

/-- CD-quality stereo PCM format with every field as documented. -/
def fmtCd : WaveFmt :=
  { Subchunk1ID := [102, 109, 116, 32], Subchunk1Size := 16, AudioFormat := 1,
    NumChannels := 2, SampleRate := 44100, ByteRate := 176400, BlockAlign := 4,
    BitsPerSample := 16, ExtraParamSize := 0, ExtraParams := [] }

/-- Format with `SampleRate` 2^60, 2 channels and 8 bits, whose product 2^64
wraps around to 0 on a Go `int`; `ByteRate` is 0 and `BlockAlign` is 2. -/
def fmtWrapping : WaveFmt :=
  { Subchunk1ID := [102, 109, 116, 32], Subchunk1Size := 16, AudioFormat := 1,
    NumChannels := 2, SampleRate := 1152921504606846976, ByteRate := 0,
    BlockAlign := 2, BitsPerSample := 8, ExtraParamSize := 0, ExtraParams := [] }

/-- Data subchunk announcing four bytes and holding none. -/
def dataSizeMismatch : WaveData :=
  { Subchunk2ID := [100, 97, 116, 97], Subchunk2Size := 4, RawData := [],
    Samples := [] }

/-- Data subchunk announcing four bytes and holding four. -/
def dataFourBytes : WaveData :=
  { Subchunk2ID := [100, 97, 116, 97], Subchunk2Size := 4, RawData := [1, 2, 3, 4],
    Samples := [] }

/-- A non-PCM file (format code 3) with two extra-parameter bytes. -/
def waveNonPcm : Wave :=
  { ChunkID := [82, 73, 70, 70], ChunkSize := 44, Format := "WAVE",
    Subchunk1ID := [102, 109, 116, 32], Subchunk1Size := 20, AudioFormat := 3,
    NumChannels := 1, SampleRate := 44100, ByteRate := 176400, BlockAlign := 4,
    BitsPerSample := 32, ExtraParamSize := 2, ExtraParams := [0, 0],
    Subchunk2ID := [100, 97, 116, 97], Subchunk2Size := 4,
    RawData := [0, 0, 0, 0], Samples := [] }

/-- A non-PCM file (format code 3) whose `ExtraParamSize` is -40. -/
def waveNegativeExtra : Wave :=
  { ChunkID := [82, 73, 70, 70], ChunkSize := 40, Format := "WAVE",
    Subchunk1ID := [102, 109, 116, 32], Subchunk1Size := 16, AudioFormat := 3,
    NumChannels := 1, SampleRate := 44100, ByteRate := 176400, BlockAlign := 4,
    BitsPerSample := 32, ExtraParamSize := -40, ExtraParams := [],
    Subchunk2ID := [100, 97, 116, 97], Subchunk2Size := 4,
    RawData := [0, 0, 0, 0], Samples := [] }

/-- A non-PCM file (format code 3) whose `ExtraParamSize` is 0 while
`ExtraParams` holds two bytes. -/
def waveExtraMismatch : Wave :=
  { ChunkID := [82, 73, 70, 70], ChunkSize := 44, Format := "WAVE",
    Subchunk1ID := [102, 109, 116, 32], Subchunk1Size := 20, AudioFormat := 3,
    NumChannels := 1, SampleRate := 44100, ByteRate := 176400, BlockAlign := 4,
    BitsPerSample := 32, ExtraParamSize := 0, ExtraParams := [0, 0],
    Subchunk2ID := [100, 97, 116, 97], Subchunk2Size := 4,
    RawData := [0, 0, 0, 0], Samples := [] }

/-! ## Go arithmetic on 64-bit `int` -/

theorem wrapInt_inRange (x : Int) : InIntRange (wrapInt x) := by
  unfold wrapInt InIntRange
  have h1 := Int.emod_nonneg (x + 2 ^ 63) (show (2 ^ 64 : Int) ≠ 0 by norm_num)
  have h2 := Int.emod_lt_of_pos (x + 2 ^ 63) (show (0 : Int) < 2 ^ 64 by norm_num)
  constructor <;> omega

theorem wrapInt_of_inRange {x : Int} (h : InIntRange x) : wrapInt x = x := by
  obtain ⟨h1, h2⟩ := h
  unfold wrapInt
  rw [Int.emod_eq_of_lt (by omega) (by omega)]
  omega

theorem wrapInt_eq_sub (x : Int) :
    wrapInt x = x - 2 ^ 64 * ((x + 2 ^ 63) / 2 ^ 64) := by
  unfold wrapInt
  have := Int.emod_add_ediv (x + 2 ^ 63) (2 ^ 64)
  omega

theorem wrapInt_sub_mul (x k : Int) : wrapInt (x - 2 ^ 64 * k) = wrapInt x := by
  unfold wrapInt
  have : x - 2 ^ 64 * k + 2 ^ 63 = (x + 2 ^ 63) + 2 ^ 64 * (-k) := by ring
  rw [this, Int.add_mul_emod_self_left]

theorem wrapInt_wrapInt_mul (a b : Int) : wrapInt (wrapInt a * b) = wrapInt (a * b) := by
  rw [wrapInt_eq_sub a]
  have : (a - 2 ^ 64 * ((a + 2 ^ 63) / 2 ^ 64)) * b
      = a * b - 2 ^ 64 * (((a + 2 ^ 63) / 2 ^ 64) * b) := by ring
  rw [this, wrapInt_sub_mul]

theorem tdiv_eight_bounds {x : Int} (h : InIntRange x) :
    -(2 ^ 60) ≤ Int.tdiv x 8 ∧ Int.tdiv x 8 < 2 ^ 60 := by
  obtain ⟨h1, h2⟩ := h
  rcases le_or_lt 0 x with hx | hx
  · rw [Int.tdiv_eq_ediv hx (by decide)]
    omega
  · have hneg : Int.tdiv x 8 = -((-x) / 8) := by
      rw [← Int.tdiv_eq_ediv (by omega) (by decide), Int.neg_tdiv, neg_neg]
    rw [hneg]
    omega

theorem tdiv_eight_inRange {x : Int} (h : InIntRange x) : InIntRange (Int.tdiv x 8) := by
  have hb := tdiv_eight_bounds h
  unfold InIntRange
  omega

theorem tdiv_eight_floor {x : Int} (h : 0 ≤ x) :
    8 * Int.tdiv x 8 ≤ x ∧ x < 8 * Int.tdiv x 8 + 8 := by
  rw [Int.tdiv_eq_ediv h (by decide)]
  omega

theorem goDiv_eight_of_inRange {x : Int} (h : InIntRange x) :
    goDiv x 8 = Int.tdiv x 8 :=
  wrapInt_of_inRange (tdiv_eight_inRange h)

theorem byteRateGo_eq (sr nc bps : Int) :
    byteRateGo sr nc bps = Int.tdiv (wrapInt (sr * nc * bps)) 8 := by
  unfold byteRateGo goMul
  rw [wrapInt_wrapInt_mul, goDiv_eight_of_inRange (wrapInt_inRange _)]

theorem blockAlignGo_eq (nc bps : Int) :
    blockAlignGo nc bps = Int.tdiv (wrapInt (nc * bps)) 8 := by
  unfold blockAlignGo goMul
  rw [goDiv_eight_of_inRange (wrapInt_inRange _)]

theorem tdiv_eight_mul_of_dvd {m : Int} (s : Int) (h : 8 ∣ m) :
    Int.tdiv (s * m) 8 = s * Int.tdiv m 8 := by
  obtain ⟨k, rfl⟩ := h
  rw [show s * (8 * k) = 8 * (s * k) by ring,
    Int.mul_tdiv_cancel_left _ (by decide), Int.mul_tdiv_cancel_left _ (by decide)]

/-! ## The table with its optional rows -/

theorem gapFree_withExtraParams (n s : Nat) :
    gapFree (afterHeader (withExtraParams n s)) = true ↔ s = 2 + n := by
  simp [withExtraParams, layoutTable, afterHeader, gapFree, consecutivePairs,
    contiguousPair, LayoutRow.endOffset]
  omega

theorem dataRowsOf_withExtraParams (n s : Nat) :
    (dataRowsOf (withExtraParams n s)).map (fun r => (r.field, r.offset)) =
      [(FieldName.Subchunk2ID, 36 + s), (FieldName.SubchunkSize, 40 + s),
        (FieldName.Data, 44 + s)] := by
  simp [withExtraParams, layoutTable, dataRowsOf]

theorem withExtraParams_has_optional (n s : Nat) :
    ∃ r ∈ withExtraParams n s, r.isOptional = true :=
  ⟨⟨.fmt, true, 36, .ExtraParamSize, some 2, .onlyWhenNotPCM⟩,
    by simp [withExtraParams, layoutTable], by decide⟩

/-! ## The derived fields of `WaveFmt` and `WaveData` -/

/-- C1, counterexample: the CD-quality value `fmtByteRateUnset` is a `WaveFmt`
whose `ByteRate` is 0 while the Go expression
`SampleRate * NumChannels * BitsPerSample / 8` is 176400, so the equality does
not hold of every `WaveFmt` value. -/
theorem byteRate_formula_not_enforced :
    fmtByteRateUnset.ByteRate = 0 ∧
    byteRateGo fmtByteRateUnset.SampleRate fmtByteRateUnset.NumChannels
      fmtByteRateUnset.BitsPerSample = 176400 ∧
    ¬ ∀ w : WaveFmt,
        w.ByteRate = byteRateGo w.SampleRate w.NumChannels w.BitsPerSample := by
  refine ⟨by decide, by decide, fun h => ?_⟩
  exact absurd (h fmtByteRateUnset) (by decide)

/-- C1, amended: `ByteRate` is stored on its own and equals
`SampleRate * NumChannels * BitsPerSample / 8` (Go `int` arithmetic, left to
right) only in the `WaveFmt` values where it was stored so.  In every such
value `ByteRate` is the quotient, truncated toward zero, of the 64-bit
wrap-around of the product by 8; it lies from -2^60 up to 2^60; and when the
product is non-negative and below 2^63 it is the whole number of bytes with
`8 * ByteRate ≤ product < 8 * ByteRate + 8`. -/
theorem byteRate_where_derived (w : WaveFmt)
    (h : w.ByteRate = byteRateGo w.SampleRate w.NumChannels w.BitsPerSample) :
    w.ByteRate = Int.tdiv (wrapInt (w.SampleRate * w.NumChannels * w.BitsPerSample)) 8 ∧
    -(2 ^ 60) ≤ w.ByteRate ∧ w.ByteRate < 2 ^ 60 ∧
    (0 ≤ w.SampleRate * w.NumChannels * w.BitsPerSample →
      w.SampleRate * w.NumChannels * w.BitsPerSample < 2 ^ 63 →
      8 * w.ByteRate ≤ w.SampleRate * w.NumChannels * w.BitsPerSample ∧
      w.SampleRate * w.NumChannels * w.BitsPerSample < 8 * w.ByteRate + 8) := by
  have he := byteRateGo_eq w.SampleRate w.NumChannels w.BitsPerSample
  have hb := tdiv_eight_bounds
    (wrapInt_inRange (w.SampleRate * w.NumChannels * w.BitsPerSample))
  rw [← he, ← h] at hb
  refine ⟨h.trans he, hb.1, hb.2, fun h0 h1 => ?_⟩
  have hr : InIntRange (w.SampleRate * w.NumChannels * w.BitsPerSample) := by
    unfold InIntRange
    omega
  rw [h, he, wrapInt_of_inRange hr]
  exact tdiv_eight_floor h0

/-- C1, witness: `fmtCd` (44100 Hz, 2 channels, 16 bits, `ByteRate` 176400)
holds the Go value, with `8 * 176400 = 44100 * 2 * 16`; `fmtWrapping`, whose
product 2^64 wraps to 0, holds it with `ByteRate` 0. -/
theorem byteRate_where_derived_witness :
    fmtCd.ByteRate = byteRateGo fmtCd.SampleRate fmtCd.NumChannels fmtCd.BitsPerSample ∧
    (8 * fmtCd.ByteRate ≤ fmtCd.SampleRate * fmtCd.NumChannels * fmtCd.BitsPerSample ∧
      fmtCd.SampleRate * fmtCd.NumChannels * fmtCd.BitsPerSample < 8 * fmtCd.ByteRate + 8) ∧
    fmtWrapping.ByteRate =
      byteRateGo fmtWrapping.SampleRate fmtWrapping.NumChannels fmtWrapping.BitsPerSample ∧
    fmtWrapping.ByteRate < 2 ^ 60 :=
  ⟨by decide, (byteRate_where_derived fmtCd (by decide)).2.2.2 (by decide) (by decide),
    by decide, (byteRate_where_derived fmtWrapping (by decide)).2.2.1⟩

/-- C2, counterexample: the CD-quality value `fmtBlockAlignUnset` is a
`WaveFmt` whose `BlockAlign` is 0 while the Go expression
`NumChannels * BitsPerSample / 8` is 4, so the equality does not hold of every
`WaveFmt` value. -/
theorem blockAlign_formula_not_enforced :
    fmtBlockAlignUnset.BlockAlign = 0 ∧
    blockAlignGo fmtBlockAlignUnset.NumChannels fmtBlockAlignUnset.BitsPerSample = 4 ∧
    ¬ ∀ w : WaveFmt, w.BlockAlign = blockAlignGo w.NumChannels w.BitsPerSample := by
  refine ⟨by decide, by decide, fun h => ?_⟩
  exact absurd (h fmtBlockAlignUnset) (by decide)

/-- C2, amended: `BlockAlign` is stored on its own and equals
`NumChannels * BitsPerSample / 8` (Go `int` arithmetic) only in the `WaveFmt`
values where it was stored so.  In every such value `BlockAlign` is the
quotient, truncated toward zero, of the 64-bit wrap-around of the product by 8;
it lies from -2^60 up to 2^60; and when the product is non-negative and below
2^63 it is the whole number of bytes with
`8 * BlockAlign ≤ product < 8 * BlockAlign + 8`. -/
theorem blockAlign_where_derived (w : WaveFmt)
    (h : w.BlockAlign = blockAlignGo w.NumChannels w.BitsPerSample) :
    w.BlockAlign = Int.tdiv (wrapInt (w.NumChannels * w.BitsPerSample)) 8 ∧
    -(2 ^ 60) ≤ w.BlockAlign ∧ w.BlockAlign < 2 ^ 60 ∧
    (0 ≤ w.NumChannels * w.BitsPerSample → w.NumChannels * w.BitsPerSample < 2 ^ 63 →
      8 * w.BlockAlign ≤ w.NumChannels * w.BitsPerSample ∧
      w.NumChannels * w.BitsPerSample < 8 * w.BlockAlign + 8) := by
  have he := blockAlignGo_eq w.NumChannels w.BitsPerSample
  have hb := tdiv_eight_bounds (wrapInt_inRange (w.NumChannels * w.BitsPerSample))
  rw [← he, ← h] at hb
  refine ⟨h.trans he, hb.1, hb.2, fun h0 h1 => ?_⟩
  have hr : InIntRange (w.NumChannels * w.BitsPerSample) := by
    unfold InIntRange
    omega
  rw [h, he, wrapInt_of_inRange hr]
  exact tdiv_eight_floor h0

/-- C2, witness: `fmtCd` (2 channels of 16 bits, `BlockAlign` 4) holds the Go
value, with `8 * 4 = 2 * 16`. -/
theorem blockAlign_where_derived_witness :
    fmtCd.BlockAlign = blockAlignGo fmtCd.NumChannels fmtCd.BitsPerSample ∧
    8 * fmtCd.BlockAlign ≤ fmtCd.NumChannels * fmtCd.BitsPerSample ∧
    fmtCd.NumChannels * fmtCd.BitsPerSample < 8 * fmtCd.BlockAlign + 8 :=
  ⟨by decide, (blockAlign_where_derived fmtCd (by decide)).2.2.2 (by decide) (by decide)⟩

/-- C6, counterexample: `dataSizeMismatch` is a `WaveData` whose
`Subchunk2Size` is 4 while `RawData` holds no byte, so `Subchunk2Size` is not
the length of `RawData` for every `WaveData` value. -/
theorem subchunk2Size_not_enforced :
    dataSizeMismatch.Subchunk2Size = 4 ∧
    dataSizeMismatch.RawData.length = 0 ∧
    ¬ ∀ d : WaveData, d.Subchunk2Size = (d.RawData.length : Int) := by
  refine ⟨by decide, by decide, fun h => ?_⟩
  exact absurd (h dataSizeMismatch) (by decide)

/-- C6, amended: `Subchunk2Size` is stored apart from `RawData` and equals the
number of bytes of `RawData` only in the `WaveData` values where it was stored
so.  In every such value `Subchunk2Size` is non-negative, and the value got by
appending bytes `bs` to `RawData`, every other field kept, still has
`Subchunk2Size` equal to the length of its `RawData` exactly when `bs` is
empty: nothing keeps the two fields in step. -/
theorem subchunk2Size_where_raw_size (d : WaveData) (bs : List Byte)
    (h : d.Subchunk2Size = (d.RawData.length : Int)) :
    0 ≤ d.Subchunk2Size ∧
    (({ d with RawData := d.RawData ++ bs }).Subchunk2Size =
        ((({ d with RawData := d.RawData ++ bs }).RawData.length : Nat) : Int) ↔
      bs = []) := by
  refine ⟨by omega, ?_⟩
  show d.Subchunk2Size = (((d.RawData ++ bs).length : Nat) : Int) ↔ bs = []
  rw [h, List.length_append, ← List.length_eq_zero]
  omega

/-- C6, witness: `dataFourBytes` announces 4 bytes and holds 4; with a fifth
byte appended to `RawData` its `Subchunk2Size` 4 is no longer the length. -/
theorem subchunk2Size_where_raw_size_witness :
    dataFourBytes.Subchunk2Size = (dataFourBytes.RawData.length : Int) ∧
    dataFourBytes.RawData.length = 4 ∧
    ¬ ({ dataFourBytes with RawData := dataFourBytes.RawData ++ [5] }).Subchunk2Size =
        ((({ dataFourBytes with RawData := dataFourBytes.RawData ++ [5] }).RawData.length :
          Nat) : Int) :=
  ⟨by decide, by decide, fun h =>
    absurd ((subchunk2Size_where_raw_size dataFourBytes [5] (by decide)).2.1 h) (by decide)⟩

/-! ## The optional extension rows and the data subchunk -/

/-- C3, counterexample: `fmtPcmWithExtra` is a `WaveFmt` with `AudioFormat = 1`
whose `ExtraParamSize` is 2 and whose `ExtraParams` holds two bytes, and
`fmtNonPcmNoExtra` is a `WaveFmt` with `AudioFormat = 3` whose `ExtraParamSize`
is 0 and whose `ExtraParams` is empty.  So a PCM value can carry extension
content, and extension content is not present if and only if the format is not
PCM. -/
theorem extension_fields_not_enforced :
    (fmtPcmWithExtra.AudioFormat = 1 ∧ fmtPcmWithExtra.ExtraParamSize = 2 ∧
      fmtPcmWithExtra.ExtraParams = [0, 0]) ∧
    (fmtNonPcmNoExtra.AudioFormat = 3 ∧ fmtNonPcmNoExtra.ExtraParamSize = 0 ∧
      fmtNonPcmNoExtra.ExtraParams = []) ∧
    (¬ ∀ w : WaveFmt, w.AudioFormat = 1 → w.ExtraParamSize = 0 ∧ w.ExtraParams = []) ∧
    ¬ ∀ w : WaveFmt,
        (w.ExtraParamSize ≠ 0 ∨ w.ExtraParams ≠ []) ↔ w.AudioFormat ≠ 1 := by
  refine ⟨by decide, by decide, fun h => ?_, fun h => ?_⟩
  · exact absurd (h fmtPcmWithExtra (by decide)).1 (by decide)
  · exact absurd ((h fmtNonPcmNoExtra).2 (by decide)) (by decide)

/-- C3, amended: the struct has `ExtraParamSize` and `ExtraParams` in every
value and ties neither to `AudioFormat`: every format code goes with every
extension content.  In the layout table the extension fields are the two rows
marked `Optional! Only when not PCM`, `ExtraParamSize` (2 bytes at `* 36`) and
`ExtraParams` (size `*` at `* 38`); the PCM layout has neither and respects
the remark for every format code, and a layout that has them respects it
exactly when the format code is not 1. -/
theorem extension_rows_only_when_not_pcm (af n : Int) (bs : List Byte) :
    (∃ w : WaveFmt, w.AudioFormat = af ∧ w.ExtraParamSize = n ∧ w.ExtraParams = bs) ∧
    (layoutTable.filter LayoutRow.isOptional).map
        (fun r => (r.field, r.starred, r.offset, r.size)) =
      [(FieldName.ExtraParamSize, true, 36, some 2),
        (FieldName.ExtraParams, true, 38, none)] ∧
    (∀ r ∈ pcmLayout,
      r.field ≠ FieldName.ExtraParamSize ∧ r.field ≠ FieldName.ExtraParams) ∧
    RespectsOptional af pcmLayout ∧
    (∀ m s : Nat, RespectsOptional af (withExtraParams m s) ↔ af ≠ 1) := by
  refine ⟨⟨{ fmtCd with AudioFormat := af, ExtraParamSize := n, ExtraParams := bs },
    rfl, rfl, rfl⟩, by decide, by decide, fun h => ?_, fun m s => ⟨fun h => ?_, fun h _ => h⟩⟩
  · exact absurd h (by decide)
  · exact h (withExtraParams_has_optional m s)

/-- C3, witness: for format code 3 a layout with the optional rows, here with
2 bytes of extra params, respects the remark. -/
theorem extension_rows_only_when_not_pcm_witness :
    (3 : Int) ≠ 1 ∧ RespectsOptional 3 (withExtraParams 2 4) :=
  ⟨by decide, ((extension_rows_only_when_not_pcm 3 2 [0, 0]).2.2.2.2 2 4).2 (by decide)⟩

/-- C4, counterexample: `waveNegativeExtra` is a `Wave` with `AudioFormat = 3`
and `ExtraParamSize = -40`, for which `38 + ExtraParamSize` is -2: no row of
the PCM layout and no row of the table with its optional rows, whatever the
size of the extra params and the move of the data rows, starts there.
`waveExtraMismatch` has `ExtraParamSize = 0` and two bytes of `ExtraParams`:
the gap-free layout whose `ExtraParams` row holds these two bytes has
`Subchunk2ID` at 40, not at `38 + ExtraParamSize = 38`. -/
theorem data_offsets_not_by_extraParamSize :
    waveNegativeExtra.AudioFormat ≠ 1 ∧
    (38 : Int) + waveNegativeExtra.ExtraParamSize = -2 ∧
    (∀ r ∈ pcmLayout, (r.offset : Int) ≠ 38 + waveNegativeExtra.ExtraParamSize) ∧
    (∀ n s : Nat, ∀ r ∈ withExtraParams n s,
      (r.offset : Int) ≠ 38 + waveNegativeExtra.ExtraParamSize) ∧
    waveExtraMismatch.AudioFormat ≠ 1 ∧
    (38 : Int) + waveExtraMismatch.ExtraParamSize = 38 ∧
    (∀ s : Nat,
      gapFree (afterHeader (withExtraParams waveExtraMismatch.ExtraParams.length s)) = true →
      (dataRowsOf (withExtraParams waveExtraMismatch.ExtraParams.length s)).map
          (fun r => (r.field, r.offset)) =
        [(FieldName.Subchunk2ID, 40), (FieldName.SubchunkSize, 44),
          (FieldName.Data, 48)]) := by
  refine ⟨by decide, by decide, fun r _ => ?_, fun n s r _ => ?_, by decide, by decide,
    fun s h => ?_⟩
  · have h2 : (38 : Int) + waveNegativeExtra.ExtraParamSize = -2 := by decide
    omega
  · have h2 : (38 : Int) + waveNegativeExtra.ExtraParamSize = -2 := by decide
    omega
  · have hs := (gapFree_withExtraParams _ s).1 h
    have hl : waveExtraMismatch.ExtraParams.length = 2 := by decide
    rw [hl] at hs
    rw [dataRowsOf_withExtraParams, hs]

/-- C4, amended: in the PCM layout, the one without the rows marked
`Optional! Only when not PCM`, `Subchunk2ID`, `SubchunkSize` (the
`Subchunk2Size` field) and `Data` start at bytes 36, 40 and 44, and the layout
is gap-free after the header; a `Wave` with `AudioFormat = 1` admits no layout
with the optional rows.  In the table with its optional rows, the extra params
taking `n` bytes and the data rows moved by `s`, the layout is gap-free after
the header exactly when `s = 2 + n`, and then the three rows start at
`38 + n`, `42 + n` and `46 + n`; these are `38 + ExtraParamSize`,
`42 + ExtraParamSize`, `46 + ExtraParamSize` for a `Wave` whose
`ExtraParamSize` is `n`. -/
theorem data_subchunk_offsets (w : Wave) (n s : Nat) :
    (dataRowsOf pcmLayout).map (fun r => (r.field, r.offset)) =
      [(FieldName.Subchunk2ID, 36), (FieldName.SubchunkSize, 40), (FieldName.Data, 44)] ∧
    gapFree (afterHeader pcmLayout) = true ∧
    (w.AudioFormat = 1 → ¬ RespectsOptional w.AudioFormat (withExtraParams n s)) ∧
    (gapFree (afterHeader (withExtraParams n s)) = true ↔ s = 2 + n) ∧
    (gapFree (afterHeader (withExtraParams n s)) = true →
      (dataRowsOf (withExtraParams n s)).map (fun r => (r.field, r.offset)) =
        [(FieldName.Subchunk2ID, 38 + n), (FieldName.SubchunkSize, 42 + n),
          (FieldName.Data, 46 + n)]) ∧
    (gapFree (afterHeader (withExtraParams n s)) = true → w.ExtraParamSize = (n : Int) →
      (dataRowsOf (withExtraParams n s)).map (fun r => (r.field, (r.offset : Int))) =
        [(FieldName.Subchunk2ID, 38 + w.ExtraParamSize),
          (FieldName.SubchunkSize, 42 + w.ExtraParamSize),
          (FieldName.Data, 46 + w.ExtraParamSize)]) := by
  have hoff : ∀ k : Nat, (dataRowsOf (withExtraParams n (2 + k))).map
      (fun r => (r.field, r.offset)) =
        [(FieldName.Subchunk2ID, 38 + k), (FieldName.SubchunkSize, 42 + k),
          (FieldName.Data, 46 + k)] := by
    intro k
    rw [dataRowsOf_withExtraParams]
    simp only [← Nat.add_assoc]
  refine ⟨by decide, by decide, fun h hr => ?_, gapFree_withExtraParams n s,
    fun hg => ?_, fun hg he => ?_⟩
  · exact hr (withExtraParams_has_optional n s) h
  · rw [(gapFree_withExtraParams n s).1 hg]
    exact hoff n
  · have h1 := hoff n
    rw [← (gapFree_withExtraParams n s).1 hg] at h1
    have h2 := congrArg (List.map fun p : FieldName × Nat => (p.1, (p.2 : Int))) h1
    simp only [List.map_map, List.map_cons, List.map_nil] at h2
    rw [he]
    simpa [Function.comp_def] using h2

/-- C4, witness: `waveNonPcm` has `ExtraParamSize = 2`; the table with its
optional rows, 2 bytes of extra params and the data rows moved by 4 is
gap-free after the header and has the data rows at 40, 44 and 48. -/
theorem data_subchunk_offsets_witness :
    gapFree (afterHeader (withExtraParams 2 4)) = true ∧
    waveNonPcm.ExtraParamSize = ((2 : Nat) : Int) ∧
    (dataRowsOf (withExtraParams 2 4)).map (fun r => (r.field, (r.offset : Int))) =
      [(FieldName.Subchunk2ID, 38 + waveNonPcm.ExtraParamSize),
        (FieldName.SubchunkSize, 42 + waveNonPcm.ExtraParamSize),
        (FieldName.Data, 46 + waveNonPcm.ExtraParamSize)] :=
  ⟨by decide, by decide,
    (data_subchunk_offsets waveNonPcm 2 4).2.2.2.2.2 (by decide) (by decide)⟩

/-! ## Contiguity of the PCM layout -/

/-- C5, the table at the `Format` row: the PCM layout has the fourteen fields
`ChunkID` .. `Data` in this order, and it is not gap-free as documented.  The
one pair of consecutive rows that is not contiguous is (`Format`,
`SubchunkID`): the table gives `Format` offset 8 and size 8, which ends at 16,
and puts `SubchunkID` at 12.  With the 4 bytes of the specification for the
format tag every consecutive pair is contiguous. -/
theorem pcmLayout_format_row_not_contiguous :
    pcmLayout.map (fun r => r.field) =
      [FieldName.ChunkID, FieldName.ChunkSize, FieldName.Format, FieldName.SubchunkID,
        FieldName.SubchunkSize, FieldName.AudioFormat, FieldName.NumChannels,
        FieldName.SampleRate, FieldName.ByteRate, FieldName.BlockAlign,
        FieldName.BitsPerSample, FieldName.Subchunk2ID, FieldName.SubchunkSize,
        FieldName.Data] ∧
    gapFree pcmLayout = false ∧
    (brokenPairs pcmLayout).map
        (fun p => (p.1.field, p.1.offset, p.1.size, p.1.endOffset, p.2.field, p.2.offset)) =
      [(FieldName.Format, 8, some 8, some 16, FieldName.SubchunkID, 12)] ∧
    gapFree pcmLayoutPerSpec = true := by
  decide

/-- C7, counterexample: `fmtPcmSize18` is a `WaveFmt` with `AudioFormat = 1`
whose `Subchunk1Size` is 18, so `Subchunk1Size` is not 16 for every PCM
`WaveFmt` value. -/
theorem subchunk1Size_not_enforced :
    fmtPcmSize18.AudioFormat = 1 ∧
    fmtPcmSize18.Subchunk1Size = 18 ∧
    ¬ ∀ w : WaveFmt, w.AudioFormat = 1 → w.Subchunk1Size = pcmSubchunk1Size := by
  refine ⟨by decide, by decide, fun h => ?_⟩
  exact absurd (h fmtPcmSize18 (by decide)) (by decide)

/-- C7, amended: the documented `Subchunk1Size` of PCM, 16, is exactly the sum
of the documented sizes 2, 2, 4, 4, 2, 2 of the fmt body rows `AudioFormat`,
`NumChannels`, `SampleRate`, `ByteRate`, `BlockAlign`, `BitsPerSample`, which
is the span from offset 20, where the body starts, to offset 36, where the PCM
data subchunk starts. -/
theorem pcm_fmt_body_is_sixteen_bytes :
    pcmFmtBody.map (fun r => r.field) =
      [FieldName.AudioFormat, FieldName.NumChannels, FieldName.SampleRate,
        FieldName.ByteRate, FieldName.BlockAlign, FieldName.BitsPerSample] ∧
    pcmFmtBody.map (fun r => r.size) = [some 2, some 2, some 4, some 4, some 2, some 2] ∧
    ((pcmFmtBody.filterMap fun r => r.size).sum : Int) = pcmSubchunk1Size ∧
    pcmSubchunk1Size = 16 ∧
    (pcmFmtBody.head?.map fun r => r.offset) = some 20 ∧
    (dataRows.head?.map fun r => (r.field, r.offset)) = some (FieldName.Subchunk2ID, 36) ∧
    gapFree pcmFmtBody = true ∧
    (36 : Int) - 20 = pcmSubchunk1Size := by
  decide

/-! ## Byte rate against block alignment -/

/-- C8, counterexample: with `SampleRate` 2^60, 2 channels and 8 bits, all
non-negative Go ints with `2 * 8` a multiple of 8, the Go expression
`SampleRate * NumChannels * BitsPerSample / 8` is 0, the product 2^64 having
wrapped around, while `SampleRate * (NumChannels * BitsPerSample / 8)` is 2^61.
And the divisibility is not needed for the two to agree: for 1 Hz, 1 channel,
4 bits both are 0. -/
theorem byteRate_blockAlign_divisibility_not_enough :
    InIntRange 1152921504606846976 ∧ (0 : Int) ≤ 1152921504606846976 ∧
    (8 : Int) ∣ 2 * 8 ∧
    byteRateGo 1152921504606846976 2 8 = 0 ∧
    goMul 1152921504606846976 (blockAlignGo 2 8) = 2305843009213693952 ∧
    (¬ ∀ sampleRate numChannels bitsPerSample : Int,
      InIntRange sampleRate → InIntRange numChannels → InIntRange bitsPerSample →
      0 ≤ sampleRate → 0 ≤ numChannels → 0 ≤ bitsPerSample →
      8 ∣ numChannels * bitsPerSample →
      byteRateGo sampleRate numChannels bitsPerSample =
        goMul sampleRate (blockAlignGo numChannels bitsPerSample)) ∧
    ¬ (8 : Int) ∣ 1 * 4 ∧
    byteRateGo 1 1 4 = goMul 1 (blockAlignGo 1 4) := by
  refine ⟨by decide, by decide, by decide, by decide, by decide, fun h => ?_, by decide,
    by decide⟩
  exact absurd
    (h 1152921504606846976 2 8 (by decide) (by decide) (by decide) (by decide) (by decide)
      (by decide) (by decide))
    (by decide)

/-- C8, amended: for all non-negative `SampleRate`, `NumChannels`,
`BitsPerSample` such that `NumChannels * BitsPerSample` is a multiple of 8 and
the product `SampleRate * NumChannels * BitsPerSample` is below 2^63, the Go
expression `SampleRate * NumChannels * BitsPerSample / 8` equals
`SampleRate * (NumChannels * BitsPerSample / 8)`, and 8 times it is the exact
product.  Without the divisibility the two can differ, 44100 Hz, 1 channel,
12 bits giving 66150 against 44100, and can agree, 1 Hz, 1 channel, 4 bits
giving 0 twice. -/
theorem byteRateGo_eq_sampleRate_mul_blockAlignGo :
    (∀ sampleRate numChannels bitsPerSample : Int,
      0 ≤ sampleRate → 0 ≤ numChannels → 0 ≤ bitsPerSample →
      8 ∣ numChannels * bitsPerSample →
      sampleRate * numChannels * bitsPerSample < 2 ^ 63 →
      byteRateGo sampleRate numChannels bitsPerSample =
          goMul sampleRate (blockAlignGo numChannels bitsPerSample) ∧
        8 * byteRateGo sampleRate numChannels bitsPerSample =
          sampleRate * numChannels * bitsPerSample) ∧
    byteRateGo 44100 1 12 = 66150 ∧
    goMul 44100 (blockAlignGo 1 12) = 44100 ∧
    byteRateGo 1 1 4 = 0 ∧
    goMul 1 (blockAlignGo 1 4) = 0 := by
  refine ⟨fun sr nc bps hsr hnc hbps hd hlt => ?_, by decide, by decide, by decide,
    by decide⟩
  have hnb : 0 ≤ nc * bps := mul_nonneg hnc hbps
  have hp : 0 ≤ sr * nc * bps := mul_nonneg (mul_nonneg hsr hnc) hbps
  have hR : InIntRange (sr * nc * bps) := by
    unfold InIntRange
    omega
  have hL : byteRateGo sr nc bps = sr * Int.tdiv (nc * bps) 8 := by
    rw [byteRateGo_eq, wrapInt_of_inRange hR, mul_assoc]
    exact tdiv_eight_mul_of_dvd sr hd
  have hE : 8 * (sr * Int.tdiv (nc * bps) 8) = sr * nc * bps := by
    obtain ⟨k, hk⟩ := hd
    rw [hk, Int.mul_tdiv_cancel_left _ (by decide), mul_assoc, hk]
    ring
  refine ⟨?_, by rw [hL, hE]⟩
  rw [hL, goMul, blockAlignGo_eq]
  rcases eq_or_lt_of_le hsr with h0 | hpos
  · rw [← h0]
    simp [wrapInt]
  · have hle : nc * bps ≤ sr * (nc * bps) := by
      have h1 : (1 : Int) ≤ sr := hpos
      calc nc * bps = 1 * (nc * bps) := (one_mul _).symm
        _ ≤ sr * (nc * bps) := mul_le_mul_of_nonneg_right h1 hnb
    have hnR : InIntRange (nc * bps) := by
      unfold InIntRange
      rw [mul_assoc] at hlt
      omega
    rw [wrapInt_of_inRange hnR]
    have hin : InIntRange (sr * Int.tdiv (nc * bps) 8) := by
      rw [← tdiv_eight_mul_of_dvd sr hd, ← mul_assoc]
      exact tdiv_eight_inRange hR
    exact (wrapInt_of_inRange hin).symm

/-- C8, witness: CD quality, 44100 Hz with 2 channels of 16 bits, has `2 * 16`
a multiple of 8 and a product below 2^63; both expressions give 176400. -/
theorem byteRateGo_eq_sampleRate_mul_blockAlignGo_witness :
    (8 : Int) ∣ 2 * 16 ∧ (44100 : Int) * 2 * 16 < 2 ^ 63 ∧
    byteRateGo 44100 2 16 = goMul 44100 (blockAlignGo 2 16) ∧
    8 * byteRateGo 44100 2 16 = 44100 * 2 * 16 :=
  ⟨by decide, by decide,
    byteRateGo_eq_sampleRate_mul_blockAlignGo.1 44100 2 16 (by decide) (by decide)
      (by decide) (by decide) (by decide)⟩

end wave
